import Mathlib

/-!
Shallow embedding of the CW-Vue-FrontEnd cart/inventory engine.

The repository holds two near-duplicate variants of the same Vue application:
`src/app.js` (called variant A below) and `src/unnamed/part_000` (variant B).
Both keep a catalog `lessons`, a `cart` of references into that catalog, a
checkout form, and an order message, and both submit orders by a POST followed
by a batch of PUT inventory updates.

Modelling decisions:
* JavaScript objects in `lessons` are mutable and the cart stores *references*
  to them (`this.cart.push(lesson)` pushes the object itself).  We model the
  heap explicitly: `AppState.lessons` is the list of item records and
  `AppState.cart` is a list of indices into that list, so aliasing between a
  cart entry and its catalog item is captured faithfully.
* JS numbers used here are integers (`space`, `price`); we model them as `Int`.
* `Array.prototype.sort` with a comparator is, per ES2019, a stable sort with
  respect to `le a b := cmp a b ≤ 0`.  We model it by a stable insertion sort
  (`jsStableSort`); any stable sort of a consistent comparator produces the
  same sequence.
* `String.prototype.toLowerCase` is modelled character-wise with
  `Char.toLower` (the source data is ASCII); JS string comparison
  (`<` / `>` on code units) is modelled by Lean's lexicographic `String` order.
-/

/-- A catalog entry (a "lesson").  Fields as they appear in the source JSON:
`_id`, `topic`, `subject`, `location`, `price`, `space`. -/
structure Item where
  _id : Nat
  topic : String
  subject : String
  location : String
  price : Int
  space : Int
deriving DecidableEq, Inhabited

/-- An order / status message `{ type, text }` as stored in `orderMessage`. -/
structure OrderMsg where
  type : String
  text : String
deriving DecidableEq, Inhabited

/-- The checkout form `{ name, phone }`. -/
structure Checkout where
  name : String
  phone : String
deriving DecidableEq, Inhabited

/-- The sort field selected by `sortBy` (a string in the source; only these
field names are offered by the UI). -/
inductive SortField where
  | subject | topic | location | price | space
deriving DecidableEq, Inhabited

/-- The sort direction `sortOrder`, `'asc'` or `'desc'`. -/
inductive SortDir where
  | asc | desc
deriving DecidableEq, Inhabited

/-- The Vue instance's `data` record.  `cart` stores references (indices) into
`lessons`, matching `this.cart.push(lesson)` pushing the object itself. -/
structure AppState where
  lessons : List Item
  cart : List Nat
  showCart : Bool
  sortBy : SortField
  sortOrder : SortDir
  searchQuery : String
  checkout : Checkout
  orderMessage : Option OrderMsg
deriving DecidableEq, Inhabited

/-! ## Cart operations (both variants share `addToCart`; they differ only in
the empty-cart reaction of `removeFromCart`). -/

/-- Variant A and B `addToCart(lesson)`:
```js
if (lesson.space > 0) {
    this.cart.push(lesson);
    lesson.space -= 1;
}
```
The argument is a reference to an existing catalog object (the UI passes an
element of the rendered list), modelled as an index `i` into `lessons`. -/
def addToCart (i : Nat) (s : AppState) : AppState :=
  match s.lessons[i]? with
  | some lesson =>
      if lesson.space > 0 then
        { s with
          cart := s.cart ++ [i],
          lessons := s.lessons.set i { lesson with space := lesson.space - 1 } }
      else s
  | none => s

/-- Variant A `removeFromCart(item, index)` (`src/app.js`):
```js
const lessonIndex = this.lessons.findIndex(l => l._id === item._id);
if (lessonIndex !== -1) { this.lessons[lessonIndex].space += 1; }
this.cart.splice(index, 1);
if (this.cart.length === 0) { this.orderMessage = null; }
```
In the UI `item` is always the cart entry at `index`; we take the position and
dereference the stored reference.  An out-of-range position cannot arise from
the UI and is modelled as a no-op. -/
def removeFromCart (pos : Nat) (s : AppState) : AppState :=
  match s.cart[pos]? with
  | some r =>
      let item := s.lessons.getD r default
      let lessons' :=
        match s.lessons.findIdx? (fun l => l._id == item._id) with
        | some j =>
            let lj := s.lessons.getD j default
            s.lessons.set j { lj with space := lj.space + 1 }
        | none => s.lessons
      let cart' := s.cart.eraseIdx pos
      { s with
        lessons := lessons',
        cart := cart',
        orderMessage := if cart'.length = 0 then none else s.orderMessage }
  | none => s

/-- Variant B `removeFromCart(item, index)` (`src/unnamed/part_000`): identical
inventory/cart effect (`find` + `space++`, then `splice`), but on emptying the
cart it closes the cart view instead of clearing the message:
```js
if (this.cart.length === 0) { this.showCart = false; }
``` -/
def removeFromCart_v2 (pos : Nat) (s : AppState) : AppState :=
  match s.cart[pos]? with
  | some r =>
      let item := s.lessons.getD r default
      let lessons' :=
        match s.lessons.findIdx? (fun l => l._id == item._id) with
        | some j =>
            let lj := s.lessons.getD j default
            s.lessons.set j { lj with space := lj.space + 1 }
        | none => s.lessons
      let cart' := s.cart.eraseIdx pos
      { s with
        lessons := lessons',
        cart := cart',
        showCart := if cart'.length = 0 then false else s.showCart }
  | none => s

/-- One user cart action: an add (either variant, they coincide) or a removal
through either variant's handler. -/
inductive CartOp where
  | add (i : Nat)
  | removeA (pos : Nat)
  | removeB (pos : Nat)
deriving DecidableEq

/-- Interpret one cart action on the state. -/
def stepOp : CartOp → AppState → AppState
  | .add i, s => addToCart i s
  | .removeA pos, s => removeFromCart pos s
  | .removeB pos, s => removeFromCart_v2 pos s

/-- Run a sequence of cart actions left to right. -/
def runOps (s : AppState) (ops : List CartOp) : AppState :=
  ops.foldl (fun t op => stepOp op t) s

/-- The state right after a full catalog sync: `lessons` as fetched, empty
cart, defaults for the remaining fields as in the Vue `data` block. -/
def syncedState (L : List Item) : AppState :=
  { lessons := L
    cart := []
    showCart := false
    sortBy := .subject
    sortOrder := .asc
    searchQuery := ""
    checkout := { name := "", phone := "" }
    orderMessage := none }

/-! ## The sort engine -/

/-- JS `toLowerCase`, character-wise (ASCII data). -/
def jsToLower (s : String) : String :=
  String.mk (s.data.map Char.toLower)

/-- Lexicographic comparison of character sequences: JS `<` on strings
compares code units left to right, shorter prefix first. -/
def charListLt : List Char → List Char → Bool
  | [], [] => false
  | [], _ :: _ => true
  | _ :: _, [] => false
  | a :: as, b :: bs => if a < b then true else if b < a then false else charListLt as bs

/-- JS string `<`. -/
def jsStrLt (a b : String) : Bool := charListLt a.data b.data

/-- The three-way comparison the source comparator computes on two string
field values: `valA > valB → 1`, `valA < valB → -1`, otherwise `0`. -/
def cmpStr (a b : String) : Int :=
  if jsStrLt b a then 1 else if jsStrLt a b then -1 else 0

/-- The same three-way comparison on numeric field values. -/
def cmpInt (a b : Int) : Int :=
  if b < a then 1 else if a < b then -1 else 0

/-- `comparison` for a given sort field: string-valued fields are compared
case-insensitively (`typeof a[sortBy] === 'string' ? a[sortBy].toLowerCase() :
a[sortBy]`), numeric fields by natural order. -/
def keyCmp : SortField → Item → Item → Int
  | .subject, a, b => cmpStr (jsToLower a.subject) (jsToLower b.subject)
  | .topic, a, b => cmpStr (jsToLower a.topic) (jsToLower b.topic)
  | .location, a, b => cmpStr (jsToLower a.location) (jsToLower b.location)
  | .price, a, b => cmpInt a.price b.price
  | .space, a, b => cmpInt a.space b.space

/-- The full comparator passed to `sort`: `sortOrder === 'asc' ? comparison :
comparison * -1`. -/
def comparator (f : SortField) (d : SortDir) (a b : Item) : Int :=
  match d with
  | .asc => keyCmp f a b
  | .desc => -(keyCmp f a b)

/-- `le` relation induced by a comparator, `cmp a b ≤ 0`. -/
def leOf (f : SortField) (d : SortDir) (a b : Item) : Bool :=
  decide (comparator f d a b ≤ 0)

/-- Stable insertion of `a` into `l`: `a` goes before the first element it is
`le`-related to (so before later tied elements — stability). -/
def insertLE (le : Item → Item → Bool) (a : Item) : List Item → List Item
  | [] => [a]
  | b :: bs => if le a b then a :: b :: bs else b :: insertLE le a bs

/-- Stable sort with respect to `le`; models ES2019
`Array.prototype.sort(cmp)` with `le a b := cmp a b ≤ 0`. -/
def jsStableSort (le : Item → Item → Bool) : List Item → List Item
  | [] => []
  | x :: xs => insertLE le x (jsStableSort le xs)

/-- The ordered sequence produced by the `sortedLessons` comparator for a
field and direction. -/
def jsSortedOrder (f : SortField) (d : SortDir) (L : List Item) : List Item :=
  jsStableSort (leOf f d) L

/-- Variant A `sortedLessons` (`src/app.js`): `let filtered = this.lessons;
return filtered.sort(...)` — **sorts `this.lessons` in place** (the returned
array is the same object), so evaluating the computed property reorders the
catalog.  Result value and post-state. -/
def sortedLessonsA (s : AppState) : List Item × AppState :=
  let sorted := jsSortedOrder s.sortBy s.sortOrder s.lessons
  (sorted, { s with lessons := sorted })

/-- Variant B `sortedLessons` (`src/unnamed/part_000`): `let sorted =
[...this.lessons]; return sorted.sort(...)` — sorts a copy, leaving
`this.lessons` untouched. -/
def sortedLessonsB (s : AppState) : List Item × AppState :=
  (jsSortedOrder s.sortBy s.sortOrder s.lessons, s)

/-- A small concrete catalog used in several closed theorems. -/
def itemA : Item := { _id := 1, topic := "Math", subject := "Math", location := "London", price := 100, space := 5 }

def itemB : Item := { _id := 2, topic := "Art", subject := "Art", location := "Leeds", price := 80, space := 3 }

def itemC : Item := { _id := 3, topic := "Music", subject := "Music", location := "York", price := 90, space := 0 }

/-! ## The order-submission coordinator (`submitOrder`, both variants)

The network is external: the POST outcome, whether every PUT settles (resolves
rather than rejects at the transport level), and the individual PUT HTTP
statuses are inputs to the model.  `fetchLessons()` fired during finalization
(variant A) and the `setTimeout` message reset (variant B) complete
asynchronously after `submitOrder` returns and are separate events outside
this function's footprint. -/

/-- One line of the POSTed order payload: `{ id, topic, price, quantity }`. -/
structure OrderLine where
  id : Nat
  topic : String
  price : Int
  quantity : Nat
deriving DecidableEq, Inhabited

/-- The POSTed order payload `{ name, phone, lessons }`. -/
structure OrderPayload where
  name : String
  phone : String
  lessons : List OrderLine
deriving DecidableEq, Inhabited

/-- The items the cart references denote (the cart stores references into
`lessons`; dereference them). -/
def cartItems (s : AppState) : List Item :=
  s.cart.map (fun r => s.lessons.getD r default)

/-- Variant A payload (`src/app.js`): one line per cart entry, each carrying
`quantity = this.cart.filter(c => c._id === item._id).length`. -/
def orderPayloadA (ck : Checkout) (cart : List Item) : OrderPayload :=
  { name := ck.name
    phone := ck.phone
    lessons := cart.map (fun item =>
      { id := item._id
        topic := item.topic
        price := item.price
        quantity := cart.countP (fun c => c._id == item._id) }) }

/-- Variant B payload (`src/unnamed/part_000`): one line per cart entry with
`quantity: 1`. -/
def orderPayloadB (ck : Checkout) (cart : List Item) : OrderPayload :=
  { name := ck.name
    phone := ck.phone
    lessons := cart.map (fun item =>
      { id := item._id
        topic := item.topic
        price := item.price
        quantity := 1 }) }

/-- Variant A phase-2 PUT requests, as `(id, body space)` pairs:
```js
this.lessons.map(lesson => {
    const boughtCount = this.cart.filter(item => item._id === lesson._id).length;
    if (boughtCount > 0) {
        const newSpace = lesson.space - boughtCount;
        return fetch(`.../lessons/` + lesson._id, { method: 'PUT', body: { space: newSpace } });
    }
    return Promise.resolve();
});
```
Unbought lessons produce no request (`Promise.resolve()`), hence `filterMap`. -/
def putsA (lessons cart : List Item) : List (Nat × Int) :=
  lessons.filterMap (fun lesson =>
    let boughtCount := cart.countP (fun item => item._id == lesson._id)
    if boughtCount > 0 then some (lesson._id, lesson.space - boughtCount) else none)

/-- `[...new Set(xs)]`: deduplication keeping first occurrences, in order. -/
def uniqueFirst (xs : List Nat) : List Nat :=
  xs.foldl (fun acc a => if a ∈ acc then acc else acc ++ [a]) []

/-- Variant B phase-2 PUT requests:
```js
const uniqueLessonIds = [...new Set(this.cart.map(item => item._id))];
const updatePromises = uniqueLessonIds.map(id => {
    const lesson = this.lessons.find(l => l._id === id);
    if (lesson) {
        return fetch(`.../lessons/` + id, { method: 'PUT', body: { space: lesson.space } });
    }
});
```
An id with no matching lesson yields no request (`undefined`), hence
`filterMap`. -/
def putsB (lessons cart : List Item) : List (Nat × Int) :=
  (uniqueFirst (cart.map (fun item => item._id))).filterMap (fun id =>
    (lessons.find? (fun l => l._id == id)).map (fun lesson => (id, lesson.space)))

/-- What a run of `submitOrder` sent over the wire. -/
structure SubmitTrace where
  post : OrderPayload
  puts : List (Nat × Int)
deriving DecidableEq, Inhabited

def submittingMsg : OrderMsg := { type := "alert-warning", text := "Submitting order..." }

def successMsgA : OrderMsg := { type := "alert-success", text := "✅ Order submitted successfully and spaces updated!" }

def errorMsgA : OrderMsg := { type := "alert-danger", text := "❌ An error occurred during checkout." }

def successMsgB : OrderMsg := { type := "alert-success", text := "✅ Order submitted successfully!" }

def errorMsgB : OrderMsg := { type := "alert-danger", text := "❌ An error occurred. Please try again." }

/-- Variant A `submitOrder` (`src/app.js`).  `postOk` is the POST's
`response.ok`; `putsSettle` is whether every phase-2 fetch promise resolves
(`Promise.all` rejects, jumping to `catch`, only on a transport-level
rejection); `putStatuses` are the HTTP statuses of the settled PUT responses —
the source never reads them, which the definition reflects by ignoring the
argument.  Returns the post-state and the requests sent. -/
def submitOrderA (s : AppState) (postOk : Bool) (putsSettle : Bool)
    (putStatuses : List Bool) : AppState × SubmitTrace :=
  let payload := orderPayloadA s.checkout (cartItems s)
  let s₁ := { s with orderMessage := some submittingMsg }
  let _ := putStatuses
  if postOk then
    let puts := putsA s.lessons (cartItems s)
    if putsSettle then
      ({ s₁ with
          cart := []
          checkout := { name := "", phone := "" }
          showCart := false
          orderMessage := some successMsgA },
       { post := payload, puts := puts })
    else
      ({ s₁ with orderMessage := some errorMsgA }, { post := payload, puts := puts })
  else
    ({ s₁ with orderMessage := some errorMsgA }, { post := payload, puts := [] })

/-- Variant B `submitOrder` (`src/unnamed/part_000`); same protocol shape,
with `quantity: 1` lines, distinct-id PUTs carrying the locally tracked
`lesson.space`, and its own message texts. -/
def submitOrderB (s : AppState) (postOk : Bool) (putsSettle : Bool)
    (putStatuses : List Bool) : AppState × SubmitTrace :=
  let payload := orderPayloadB s.checkout (cartItems s)
  let s₁ := { s with orderMessage := some submittingMsg }
  let _ := putStatuses
  if postOk then
    let puts := putsB s.lessons (cartItems s)
    if putsSettle then
      ({ s₁ with
          cart := []
          checkout := { name := "", phone := "" }
          showCart := false
          orderMessage := some successMsgB },
       { post := payload, puts := puts })
    else
      ({ s₁ with orderMessage := some errorMsgB }, { post := payload, puts := puts })
  else
    ({ s₁ with orderMessage := some errorMsgB }, { post := payload, puts := [] })

/-- Happy-path scenario state: catalog spaces `5, 3, 0`, then item 1 added
twice (space now `3`, cart has two references to index 0). -/
def happyState : AppState :=
  runOps (syncedState [itemA, itemB, itemC]) [.add 0, .add 0]

/-! ## Derived observations on the state -/

/-- The id of the catalog slot a cart reference denotes. -/
def idAt (L : List Item) (r : Nat) : Nat := (L.getD r default)._id

/-- Number of cart entries whose item id is `n` (`countInCart`). -/
def countIn (s : AppState) (n : Nat) : Nat :=
  s.cart.countP (fun r => idAt s.lessons r == n)

/-- Space conservation relative to the catalog `L0` seen at the last sync:
every item's current `space` plus its cart multiplicity equals its synced
`space`. -/
def Conserves (L0 : List Item) (s : AppState) : Prop :=
  ∀ j, j < L0.length →
    (s.lessons.getD j default).space + (countIn s ((L0.getD j default)._id) : Int)
      = (L0.getD j default).space

/-- All item spaces are non-negative. -/
def NonNegSpace (s : AppState) : Prop :=
  ∀ l ∈ s.lessons, 0 ≤ l.space

instance (s : AppState) : Decidable (NonNegSpace s) :=
  inferInstanceAs (Decidable (∀ l ∈ s.lessons, 0 ≤ l.space))

/-- The item a cart entry (by position) denotes: dereference the stored
reference into the catalog. -/
def entryItem (s : AppState) (p : Nat) : Item :=
  s.lessons.getD (s.cart.getD p 0) default

/-! ## The conservation invariant -/

/-- Induction invariant tying a state to the catalog `L0` of the last sync:
the catalog has the same length and ids slot by slot, every cart reference is
in range, and conservation holds. -/
def CartInv (L0 : List Item) (s : AppState) : Prop :=
  s.lessons.length = L0.length ∧
  (∀ j, j < L0.length → (s.lessons.getD j default)._id = (L0.getD j default)._id) ∧
  (∀ r ∈ s.cart, r < s.lessons.length) ∧
  Conserves L0 s

/-! ## Demonstration data shared by the concrete theorems -/

/-- A second item with the same `topic` as `itemA` but a different id: a sort
tie. -/
def itemA2 : Item := { itemA with _id := 99 }

/-- A demo checkout form. -/
def demoCheckout : Checkout := { name := "Jane Doe", phone := "07123456789" }

/-- The `[A, B, A]` cart of the quantity-aggregation example. -/
def cartABA : List Item := [itemA, itemB, itemA]

/-- A state whose cart holds a single entry. -/
def oneEntryCartState : AppState :=
  { syncedState [itemA] with cart := [0], orderMessage := some submittingMsg }

/-- A state whose cart holds two entries. -/
def twoEntryCartState : AppState :=
  { syncedState [itemA] with cart := [0, 0], orderMessage := some submittingMsg }

/-- The happy-path state with `sortBy` switched to `topic`. -/
def topicSortState : AppState :=
  { syncedState [itemA, itemB] with sortBy := .topic }

/-! ## Helper lemmas on lists -/

lemma getD_set_self {L : List Item} {i : Nat} (h : i < L.length) (a : Item) :
    (L.set i a).getD i default = a := by
  simp [List.getD_eq_getElem?_getD, List.getElem?_set_self h]

lemma getD_set_ne {L : List Item} {i j : Nat} (h : i ≠ j) (a : Item) :
    (L.set i a).getD j default = L.getD j default := by
  simp [List.getD_eq_getElem?_getD, List.getElem?_set_ne h]

lemma getD_of_getElem? {L : List Item} {i : Nat} {a : Item} (h : L[i]? = some a) :
    L.getD i default = a := by
  simp [List.getD_eq_getElem?_getD, h]

lemma getD_eq_getElem {L : List Item} {i : Nat} (h : i < L.length) :
    L.getD i default = L[i] := by
  simp [List.getD_eq_getElem?_getD, List.getElem?_eq_getElem h]

lemma countP_eraseIdx {p : Nat → Bool} :
    ∀ (l : List Nat) (pos : Nat), pos < l.length →
      l.countP p = (l.eraseIdx pos).countP p + (if p (l.getD pos 0) then 1 else 0)
  | [], pos, h => by simp at h
  | x :: xs, 0, _ => by
      simp [List.countP_cons]
  | x :: xs, pos + 1, h => by
      have ih := countP_eraseIdx (p := p) xs pos (by simpa using h)
      simp only [List.eraseIdx_cons_succ, List.countP_cons, List.getD_cons_succ]
      omega

lemma idAt_set {L : List Item} {i : Nat} {a : Item}
    (ha : a._id = (L.getD i default)._id) (r : Nat) :
    idAt (L.set i a) r = idAt L r := by
  by_cases h : i = r
  · subst h
    by_cases hlen : i < L.length
    · rw [idAt, getD_set_self hlen, idAt, ha]
    · rw [List.set_eq_of_length_le (by omega)]
  · rw [idAt, getD_set_ne h, idAt]

lemma ids_distinct {L0 : List Item} (hnd : (L0.map (fun l => l._id)).Nodup)
    {i j : Nat} (hi : i < L0.length) (hj : j < L0.length) (hne : i ≠ j) :
    (L0.getD i default)._id ≠ (L0.getD j default)._id := by
  intro h
  apply hne
  rw [getD_eq_getElem hi, getD_eq_getElem hj] at h
  have hmi : i < (L0.map (fun l => l._id)).length := by simpa using hi
  have hmj : j < (L0.map (fun l => l._id)).length := by simpa using hj
  have : (L0.map (fun l => l._id))[i] = (L0.map (fun l => l._id))[j] := by
    simpa using h
  exact (List.Nodup.getElem_inj_iff hnd).mp this

lemma findIdx?_eq_some_of_unique {p : Item → Bool} :
    ∀ {L : List Item} {r : Nat}, r < L.length → p (L.getD r default) = true →
      (∀ j, j < L.length → p (L.getD j default) = true → j = r) →
      L.findIdx? p = some r := by
  intro L
  induction L with
  | nil => intro r hr _ _; simp at hr
  | cons x xs ih =>
      intro r hr hp huniq
      rw [List.findIdx?_cons]
      by_cases hx : p x
      · have h0 : (0 : Nat) = r := huniq 0 (by simp) (by simpa using hx)
        simp [hx, ← h0]
      · have hr0 : r ≠ 0 := by
          intro h
          subst h
          simp only [List.getD_cons_zero] at hp
          exact hx hp
        obtain ⟨r', rfl⟩ : ∃ r', r = r' + 1 := ⟨r - 1, by omega⟩
        have ih' : xs.findIdx? p = some r' := by
          refine ih (by simpa using hr) (by simpa using hp) ?_
          intro j hj hpj
          have := huniq (j + 1) (by simpa using hj) (by simpa using hpj)
          omega
        simp [hx, List.findIdx?_succ, ih']

lemma cartInv_congr {L0 : List Item} {s₁ s₂ : AppState}
    (hl : s₁.lessons = s₂.lessons) (hc : s₁.cart = s₂.cart) :
    CartInv L0 s₁ → CartInv L0 s₂ := by
  intro h
  unfold CartInv Conserves countIn at h ⊢
  rw [← hl, ← hc]
  exact h

lemma cartInv_init (L0 : List Item) : CartInv L0 (syncedState L0) := by
  refine ⟨rfl, fun j _ => rfl, by simp [syncedState], ?_⟩
  intro j hj
  simp [countIn, syncedState]

lemma cartInv_add {L0 : List Item} {s : AppState}
    (hnd : (L0.map (fun l => l._id)).Nodup) (h : CartInv L0 s) (i : Nat) :
    CartInv L0 (addToCart i s) := by
  obtain ⟨hlen, hids, hrefs, hcons⟩ := h
  cases hli : s.lessons[i]? with
  | none => simp only [addToCart, hli]; exact ⟨hlen, hids, hrefs, hcons⟩
  | some lesson =>
      simp only [addToCart, hli]
      by_cases hsp : lesson.space > 0
      · rw [if_pos hsp]
        have hi : i < s.lessons.length := (List.getElem?_eq_some_iff.mp hli).1
        have hiL0 : i < L0.length := hlen ▸ hi
        have hgetD : s.lessons.getD i default = lesson := getD_of_getElem? hli
        have hid1 : (Item.mk lesson._id lesson.topic lesson.subject lesson.location
            lesson.price (lesson.space - 1))._id = (s.lessons.getD i default)._id := by
          rw [hgetD]
        refine ⟨?_, ?_, ?_, ?_⟩
        · simpa using hlen
        · intro j hj
          by_cases hij : i = j
          · subst hij
            rw [getD_set_self hi]
            rw [← hids i hj, hgetD]
          · rw [getD_set_ne hij]
            exact hids j hj
        · intro r hr
          rcases List.mem_append.mp hr with hr | hr
          · have := hrefs r hr; simpa using this
          · have : r = i := by simpa using hr
            subst this
            simpa using hi
        · intro j hj
          have hcount : ∀ n, countIn { s with
                cart := s.cart ++ [i],
                lessons := s.lessons.set i { lesson with space := lesson.space - 1 } } n
              = s.cart.countP (fun r => idAt s.lessons r == n)
                + (if idAt s.lessons i == n then 1 else 0) := by
            intro n
            unfold countIn
            simp only [List.countP_append]
            have hcongr : (s.cart.countP (fun r =>
                idAt (s.lessons.set i { lesson with space := lesson.space - 1 }) r == n))
                = s.cart.countP (fun r => idAt s.lessons r == n) := by
              refine List.countP_congr ?_
              intro x _
              rw [idAt_set hid1 x]
            rw [hcongr]
            simp [List.countP_cons, idAt_set hid1 i]
          by_cases hij : i = j
          · subst hij
            rw [hcount]
            have hidi : idAt s.lessons i = (L0.getD i default)._id := by
              rw [idAt, hids i hj]
            rw [hidi]
            simp only [beq_self_eq_true, if_pos]
            have hold := hcons i hj
            unfold countIn at hold
            rw [hgetD] at hold
            rw [getD_set_self hi]
            dsimp only
            push_cast at hold ⊢
            omega
          · rw [hcount]
            have hne : idAt s.lessons i ≠ (L0.getD j default)._id := by
              rw [idAt, hids i hiL0]
              exact ids_distinct hnd hiL0 hj hij
            rw [if_neg (by simpa using hne)]
            have hold := hcons j hj
            unfold countIn at hold
            rw [getD_set_ne hij]
            simpa using hold
      · rw [if_neg hsp]
        exact ⟨hlen, hids, hrefs, hcons⟩

lemma cartInv_removeA {L0 : List Item} {s : AppState}
    (hnd : (L0.map (fun l => l._id)).Nodup) (h : CartInv L0 s) (pos : Nat) :
    CartInv L0 (removeFromCart pos s) := by
  obtain ⟨hlen, hids, hrefs, hcons⟩ := h
  cases hc : s.cart[pos]? with
  | none => simp only [removeFromCart, hc]; exact ⟨hlen, hids, hrefs, hcons⟩
  | some r =>
      simp only [removeFromCart, hc]
      obtain ⟨hpos, hrval⟩ := List.getElem?_eq_some_iff.mp hc
      have hr : r ∈ s.cart := hrval ▸ List.getElem_mem hpos
      have hrlen : r < s.lessons.length := hrefs r hr
      have hrL0 : r < L0.length := hlen ▸ hrlen
      have hrD : s.cart.getD pos 0 = r := by
        simp [List.getD_eq_getElem?_getD, hc]
      have hfind : s.lessons.findIdx?
          (fun l => l._id == (s.lessons.getD r default)._id) = some r := by
        apply findIdx?_eq_some_of_unique hrlen (by simp)
        intro j hj hpj
        have hjL0 : j < L0.length := hlen ▸ hj
        have hideq : (s.lessons.getD j default)._id = (s.lessons.getD r default)._id := by
          simpa using hpj
        by_contra hne
        exact ids_distinct hnd hjL0 hrL0 hne
          (by rw [← hids j hjL0, ← hids r hrL0]; exact hideq)
      simp only [hfind]
      have hid1 : (Item.mk (s.lessons.getD r default)._id (s.lessons.getD r default).topic
          (s.lessons.getD r default).subject (s.lessons.getD r default).location
          (s.lessons.getD r default).price ((s.lessons.getD r default).space + 1))._id
          = (s.lessons.getD r default)._id := rfl
      refine ⟨?_, ?_, ?_, ?_⟩
      · simpa using hlen
      · intro j hj
        by_cases hrj : r = j
        · subst hrj
          rw [getD_set_self hrlen]
          exact hids r hj
        · rw [getD_set_ne hrj]
          exact hids j hj
      · intro x hx
        have : x ∈ s.cart := List.mem_of_mem_eraseIdx hx
        have := hrefs x this
        simpa using this
      · intro j hj
        have hcount : ∀ n, List.countP
            (fun x => idAt (s.lessons.set r { s.lessons.getD r default with
              space := (s.lessons.getD r default).space + 1 }) x == n) (s.cart.eraseIdx pos)
            = List.countP (fun x => idAt s.lessons x == n) (s.cart.eraseIdx pos) := by
          intro n
          refine List.countP_congr ?_
          intro x _
          rw [idAt_set hid1 x]
        have hsplit : ∀ n, List.countP (fun x => idAt s.lessons x == n) s.cart
            = List.countP (fun x => idAt s.lessons x == n) (s.cart.eraseIdx pos)
              + (if (idAt s.lessons r == n) then 1 else 0) := by
          intro n
          have := countP_eraseIdx (p := fun x => idAt s.lessons x == n) s.cart pos hpos
          rw [hrD] at this
          exact this
        unfold countIn
        dsimp only
        rw [hcount]
        have hold := hcons j hj
        unfold countIn at hold
        by_cases hjr : j = r
        · subst hjr
          have hidj : idAt s.lessons j = (L0.getD j default)._id := by
            rw [idAt, hids j hj]
          have hbeq : (idAt s.lessons j == (L0.getD j default)._id) = true := by
            simp [hidj]
          have hs := hsplit ((L0.getD j default)._id)
          rw [hbeq] at hs
          simp only [if_true] at hs
          rw [getD_set_self hrlen]
          dsimp only
          omega
        · have hidne : idAt s.lessons r ≠ (L0.getD j default)._id := by
            rw [idAt, hids r hrL0]
            exact ids_distinct hnd hrL0 hj (fun hh => hjr hh.symm)
          have hs := hsplit ((L0.getD j default)._id)
          rw [if_neg (by simpa using hidne)] at hs
          rw [getD_set_ne (fun hh => hjr hh.symm)]
          omega

lemma removeB_core (pos : Nat) (s : AppState) :
    (removeFromCart_v2 pos s).lessons = (removeFromCart pos s).lessons ∧
    (removeFromCart_v2 pos s).cart = (removeFromCart pos s).cart := by
  cases hc : s.cart[pos]? <;>
    simp [removeFromCart, removeFromCart_v2, hc]

lemma cartInv_step {L0 : List Item} {s : AppState}
    (hnd : (L0.map (fun l => l._id)).Nodup) (h : CartInv L0 s) (op : CartOp) :
    CartInv L0 (stepOp op s) := by
  cases op with
  | add i => exact cartInv_add hnd h i
  | removeA pos => exact cartInv_removeA hnd h pos
  | removeB pos =>
      have hA := cartInv_removeA hnd h pos
      exact cartInv_congr (removeB_core pos s).1.symm (removeB_core pos s).2.symm hA

lemma cartInv_run {L0 : List Item}
    (hnd : (L0.map (fun l => l._id)).Nodup) :
    ∀ (ops : List CartOp) (s : AppState), CartInv L0 s → CartInv L0 (runOps s ops) := by
  intro ops
  induction ops with
  | nil => intro s h; exact h
  | cons op ops ih =>
      intro s h
      have h1 : CartInv L0 (stepOp op s) := cartInv_step hnd h op
      have : runOps s (op :: ops) = runOps (stepOp op s) ops := by
        simp [runOps]
      rw [this]
      exact ih _ h1

/-! ## Order-theoretic facts about the comparator -/

lemma charListLt_asymm : ∀ (x y : List Char),
    charListLt x y = true → charListLt y x = false
  | [], [] => by simp [charListLt]
  | [], _ :: _ => by simp [charListLt]
  | _ :: _, [] => by simp [charListLt]
  | a :: as, b :: bs => by
      intro h
      simp only [charListLt] at h ⊢
      by_cases hab : a < b
      · rw [if_neg (lt_asymm hab), if_pos hab]
      · by_cases hba : b < a
        · rw [if_neg hab, if_pos hba] at h
          exact absurd h (by simp)
        · rw [if_neg hab, if_neg hba] at h
          rw [if_neg hba, if_neg hab]
          exact charListLt_asymm as bs h

lemma charListLt_trans : ∀ (x y z : List Char),
    charListLt x y = true → charListLt y z = true → charListLt x z = true
  | [], [], _ => by simp [charListLt]
  | [], _ :: _, [] => by intro _ h; simp [charListLt] at h
  | [], _ :: _, _ :: _ => by intro _ _; simp [charListLt]
  | _ :: _, [], _ => by simp [charListLt]
  | _ :: _, _ :: _, [] => by intro _ h; simp [charListLt] at h
  | a :: as, b :: bs, c :: cs => by
      intro h1 h2
      simp only [charListLt] at h1 h2 ⊢
      by_cases hab : a < b
      · by_cases hbc : b < c
        · rw [if_pos (lt_trans hab hbc)]
        · by_cases hcb : c < b
          · rw [if_neg hbc, if_pos hcb] at h2
            exact absurd h2 (by simp)
          · have hbceq : b = c := le_antisymm (not_lt.mp hcb) (not_lt.mp hbc)
            rw [if_pos (hbceq ▸ hab)]
      · by_cases hba : b < a
        · rw [if_neg hab, if_pos hba] at h1
          exact absurd h1 (by simp)
        · have habeq : a = b := le_antisymm (not_lt.mp hba) (not_lt.mp hab)
          subst habeq
          rw [if_neg hab, if_neg hba] at h1
          by_cases hac : a < c
          · rw [if_pos hac]
          · by_cases hca : c < a
            · rw [if_neg hac, if_pos hca] at h2
              exact absurd h2 (by simp)
            · rw [if_neg hac, if_neg hca] at h2 ⊢
              exact charListLt_trans as bs cs h1 h2

lemma charListLt_eq_of_not : ∀ (x y : List Char),
    charListLt x y = false → charListLt y x = false → x = y
  | [], [] => by intro _ _; rfl
  | [], _ :: _ => by intro h _; simp [charListLt] at h
  | _ :: _, [] => by intro _ h; simp [charListLt] at h
  | a :: as, b :: bs => by
      intro h1 h2
      simp only [charListLt] at h1 h2
      by_cases hab : a < b
      · rw [if_pos hab] at h1
        exact absurd h1 (by simp)
      · by_cases hba : b < a
        · rw [if_pos hba] at h2
          exact absurd h2 (by simp)
        · have habeq : a = b := le_antisymm (not_lt.mp hba) (not_lt.mp hab)
          rw [if_neg hab, if_neg hba] at h1
          rw [if_neg hba, if_neg hab] at h2
          rw [habeq, charListLt_eq_of_not as bs h1 h2]

lemma string_eq_of_data {a b : String} (h : a.data = b.data) : a = b := by
  cases a; cases b; simp only at h; rw [h]

lemma jsStrLt_asymm {a b : String} (h : jsStrLt a b = true) : jsStrLt b a = false :=
  charListLt_asymm _ _ h

lemma jsStrLt_trans {a b c : String} (h1 : jsStrLt a b = true)
    (h2 : jsStrLt b c = true) : jsStrLt a c = true :=
  charListLt_trans _ _ _ h1 h2

lemma jsStrLt_eq_of_not {a b : String} (h1 : jsStrLt a b = false)
    (h2 : jsStrLt b a = false) : a = b :=
  string_eq_of_data (charListLt_eq_of_not _ _ h1 h2)

lemma cmpStr_neg (a b : String) : cmpStr b a = -(cmpStr a b) := by
  unfold cmpStr
  cases hab : jsStrLt a b <;> cases hba : jsStrLt b a
  · simp [hab, hba]
  · simp [hab, hba]
  · simp [hab, hba]
  · exact absurd hba (by simp [jsStrLt_asymm hab])

lemma cmpStr_nonpos_iff (a b : String) : cmpStr a b ≤ 0 ↔ jsStrLt b a = false := by
  unfold cmpStr
  by_cases h : jsStrLt b a = true
  · simp [h]
  · by_cases h2 : jsStrLt a b = true <;> simp [h, h2]

lemma cmpStr_le_trans {a b c : String} (h1 : cmpStr a b ≤ 0) (h2 : cmpStr b c ≤ 0) :
    cmpStr a c ≤ 0 := by
  rw [cmpStr_nonpos_iff] at h1 h2 ⊢
  by_contra hca
  have hca' : jsStrLt c a = true := by
    cases hh : jsStrLt c a
    · exact absurd hh hca
    · rfl
  cases hab : jsStrLt a b
  · have : a = b := jsStrLt_eq_of_not hab h1
    subst this
    rw [hca'] at h2
    exact absurd h2 (by simp)
  · have : jsStrLt c b = true := jsStrLt_trans hca' hab
    rw [this] at h2
    exact absurd h2 (by simp)

lemma cmpInt_neg (a b : Int) : cmpInt b a = -(cmpInt a b) := by
  unfold cmpInt
  rcases lt_trichotomy a b with h | h | h
  · have h' : ¬ b < a := by omega
    simp [h, h']
  · subst h
    simp
  · have h' : ¬ a < b := by omega
    simp [h, h']

lemma cmpInt_nonpos_iff (a b : Int) : cmpInt a b ≤ 0 ↔ a ≤ b := by
  unfold cmpInt
  rcases lt_trichotomy a b with h | h | h
  · have h' : ¬ b < a := by omega
    simp [h, h']
    omega
  · subst h
    simp
  · simp [h]

lemma keyCmp_neg (f : SortField) (a b : Item) : keyCmp f b a = -(keyCmp f a b) := by
  cases f <;> simp only [keyCmp] <;>
    first
      | exact cmpStr_neg _ _
      | exact cmpInt_neg _ _

lemma keyCmp_le_trans (f : SortField) {a b c : Item}
    (h1 : keyCmp f a b ≤ 0) (h2 : keyCmp f b c ≤ 0) : keyCmp f a c ≤ 0 := by
  cases f <;> simp only [keyCmp] at h1 h2 ⊢ <;>
    first
      | exact cmpStr_le_trans h1 h2
      | · rw [cmpInt_nonpos_iff] at h1 h2 ⊢
          omega

lemma keyCmp_le_total (f : SortField) (a b : Item) :
    keyCmp f a b ≤ 0 ∨ keyCmp f b a ≤ 0 := by
  rw [keyCmp_neg]
  omega

/-! ## Structural facts about the stable sort -/

lemma insertLE_perm (le : Item → Item → Bool) (a : Item) :
    ∀ (l : List Item), (insertLE le a l).Perm (a :: l)
  | [] => List.Perm.refl _
  | b :: bs => by
      unfold insertLE
      by_cases h : le a b = true
      · rw [if_pos h]
      · rw [if_neg h]
        exact (List.Perm.cons b (insertLE_perm le a bs)).trans
          (List.Perm.swap a b bs)

lemma jsStableSort_perm (le : Item → Item → Bool) :
    ∀ (l : List Item), (jsStableSort le l).Perm l
  | [] => List.Perm.refl _
  | x :: xs => by
      unfold jsStableSort
      exact (insertLE_perm le x (jsStableSort le xs)).trans
        (List.Perm.cons x (jsStableSort_perm le xs))

lemma mem_insertLE {le : Item → Item → Bool} {a c : Item} {l : List Item}
    (h : c ∈ insertLE le a l) : c = a ∨ c ∈ l := by
  have := (insertLE_perm le a l).mem_iff.mp h
  simpa using this

lemma insertLE_pairwise (le : Item → Item → Bool)
    (htotal : ∀ a b, le a b = true ∨ le b a = true)
    (htrans : ∀ a b c, le a b = true → le b c = true → le a c = true)
    (a : Item) :
    ∀ (l : List Item), l.Pairwise (fun x y => le x y = true) →
      (insertLE le a l).Pairwise (fun x y => le x y = true)
  | [], _ => by simp [insertLE]
  | b :: bs, hp => by
      obtain ⟨hb, hbs⟩ := List.pairwise_cons.mp hp
      unfold insertLE
      by_cases h : le a b = true
      · rw [if_pos h]
        refine List.pairwise_cons.mpr ⟨?_, hp⟩
        intro c hc
        rcases List.mem_cons.mp hc with hc | hc
        · exact hc ▸ h
        · exact htrans a b c h (hb c hc)
      · rw [if_neg h]
        have hba : le b a = true := (htotal a b).resolve_left h
        refine List.pairwise_cons.mpr ⟨?_, insertLE_pairwise le htotal htrans a bs hbs⟩
        intro c hc
        rcases mem_insertLE hc with hc | hc
        · exact hc ▸ hba
        · exact hb c hc

lemma jsStableSort_pairwise (le : Item → Item → Bool)
    (htotal : ∀ a b, le a b = true ∨ le b a = true)
    (htrans : ∀ a b c, le a b = true → le b c = true → le a c = true) :
    ∀ (l : List Item), (jsStableSort le l).Pairwise (fun x y => le x y = true)
  | [] => by simp [jsStableSort]
  | x :: xs => by
      unfold jsStableSort
      exact insertLE_pairwise le htotal htrans x _
        (jsStableSort_pairwise le htotal htrans xs)

lemma jsStableSort_of_pairwise (le : Item → Item → Bool) :
    ∀ {l : List Item}, l.Pairwise (fun x y => le x y = true) → jsStableSort le l = l
  | [], _ => rfl
  | x :: xs, hp => by
      obtain ⟨hx, hxs⟩ := List.pairwise_cons.mp hp
      unfold jsStableSort
      rw [jsStableSort_of_pairwise le hxs]
      cases xs with
      | nil => rfl
      | cons c cs =>
          unfold insertLE
          rw [if_pos (hx c (List.mem_cons_self c cs))]

/-! ## `leOf` is a total preorder -/

lemma leOf_iff (f : SortField) (d : SortDir) (a b : Item) :
    leOf f d a b = true ↔ comparator f d a b ≤ 0 := by
  unfold leOf
  exact decide_eq_true_iff

lemma leOf_asc_iff (f : SortField) (a b : Item) :
    leOf f .asc a b = true ↔ keyCmp f a b ≤ 0 := leOf_iff f .asc a b

lemma leOf_desc_iff (f : SortField) (a b : Item) :
    leOf f .desc a b = true ↔ keyCmp f b a ≤ 0 := by
  rw [leOf_iff]
  show -(keyCmp f a b) ≤ 0 ↔ keyCmp f b a ≤ 0
  rw [keyCmp_neg f a b]

lemma leOf_total (f : SortField) (d : SortDir) (a b : Item) :
    leOf f d a b = true ∨ leOf f d b a = true := by
  cases d
  · rw [leOf_asc_iff, leOf_asc_iff]
    exact keyCmp_le_total f a b
  · rw [leOf_desc_iff, leOf_desc_iff]
    exact keyCmp_le_total f b a

lemma leOf_trans (f : SortField) (d : SortDir) (a b c : Item)
    (h1 : leOf f d a b = true) (h2 : leOf f d b c = true) : leOf f d a c = true := by
  cases d
  · rw [leOf_asc_iff] at h1 h2 ⊢
    exact keyCmp_le_trans f h1 h2
  · rw [leOf_desc_iff] at h1 h2 ⊢
    exact keyCmp_le_trans f h2 h1

/-! ## Non-negativity of `space` -/

lemma getD_default_of_le {L : List Item} {j : Nat} (h : L.length ≤ j) :
    L.getD j default = default := by
  simp [List.getD_eq_getElem?_getD, List.getElem?_eq_none h]

lemma nonnegSpace_lessons_congr {s₁ s₂ : AppState}
    (hl : s₁.lessons = s₂.lessons) (h : NonNegSpace s₁) : NonNegSpace s₂ := by
  unfold NonNegSpace at h ⊢
  rw [← hl]
  exact h

lemma nonnegSpace_removeA {s : AppState} (h : NonNegSpace s) (pos : Nat) :
    NonNegSpace (removeFromCart pos s) := by
  cases hc : s.cart[pos]? with
  | none => simp only [removeFromCart, hc]; exact h
  | some r =>
      simp only [removeFromCart, hc]
      cases hf : s.lessons.findIdx? (fun l => l._id == (s.lessons.getD r default)._id) with
      | none =>
          simp only [hf]
          intro l hl
          exact h l hl
      | some j =>
          simp only [hf]
          intro l hl
          rcases List.mem_or_eq_of_mem_set hl with hl | hl
          · exact h l hl
          · subst hl
            dsimp only
            by_cases hj : j < s.lessons.length
            · have hmem : s.lessons.getD j default ∈ s.lessons := by
                rw [getD_eq_getElem hj]
                exact List.getElem_mem hj
              have := h _ hmem
              omega
            · rw [getD_default_of_le (by omega)]
              simp [default, Inhabited.default]

lemma nonnegSpace_step {s : AppState} (h : NonNegSpace s) (op : CartOp) :
    NonNegSpace (stepOp op s) := by
  cases op with
  | add i =>
      show NonNegSpace (addToCart i s)
      cases hli : s.lessons[i]? with
      | none => simp only [addToCart, hli]; exact h
      | some lesson =>
          simp only [addToCart, hli]
          by_cases hsp : lesson.space > 0
          · rw [if_pos hsp]
            intro l hl
            rcases List.mem_or_eq_of_mem_set hl with hl | hl
            · exact h l hl
            · subst hl
              dsimp only
              omega
          · rw [if_neg hsp]
            exact h
  | removeA pos => exact nonnegSpace_removeA h pos
  | removeB pos =>
      exact nonnegSpace_lessons_congr (removeB_core pos s).1.symm
        (nonnegSpace_removeA h pos)

lemma nonnegSpace_run :
    ∀ (ops : List CartOp) (s : AppState), NonNegSpace s → NonNegSpace (runOps s ops) := by
  intro ops
  induction ops with
  | nil => intro s h; exact h
  | cons op ops ih =>
      intro s h
      have h1 := nonnegSpace_step h op
      have : runOps s (op :: ops) = runOps (stepOp op s) ops := by simp [runOps]
      rw [this]
      exact ih _ h1

/-! ## Claim theorems -/

/-- C1: the claim states that phase 2 issues, for every distinct item id in
the cart, one PUT whose body is the item's locally tracked `space` — on the
happy path (space 5, added twice, locally tracked value 3) a PUT with
`space: 3`.  The `src/unnamed/part_000` coordinator (`putsB`) does exactly
that, but the `src/app.js` coordinator (`putsA`) computes
`lesson.space - boughtCount` on the *already decremented* `lesson.space` and
PUTs `space: 1` — a double decrement, contradicting the claim and the spec's
happy-path scenario.  This theorem evaluates both coordinators at the
happy-path state. -/
theorem inventory_put_double_decrement_in_appjs :
    (happyState.lessons.getD 0 default).space = 3 ∧
    putsA happyState.lessons (cartItems happyState) = [(1, 1)] ∧
    putsB happyState.lessons (cartItems happyState) = [(1, 3)] := by
  refine ⟨by decide, by decide, by decide⟩

/-- C2 counterexample: the claim states the order payload has exactly one
line per distinct item id in the cart.  For the cart `[A, B, A]` the
`src/app.js` payload has three lines, two of which carry item A's id (each
with quantity 2), so the claim is false as stated. -/
theorem order_payload_not_one_line_per_distinct_id :
    ((orderPayloadA demoCheckout cartABA).lessons.length = 3) ∧
    ((orderPayloadA demoCheckout cartABA).lessons.countP (fun ln => ln.id == 1) = 2) ∧
    ((orderPayloadB demoCheckout cartABA).lessons.countP (fun ln => ln.id == 1) = 2) := by
  refine ⟨by decide, by decide, by decide⟩

/-- C2 (amended): the payload built by `submitOrder` has one line per cart
*entry* (entries sharing an id give repeated lines); in `src/app.js` each
line's quantity is the number of cart entries sharing that line's id, and in
`src/unnamed/part_000` each line's quantity is 1.  In particular `[A, B, A]`
yields lines for A, B, A with quantities 2, 1, 2 (variant A). -/
theorem order_payload_one_line_per_cart_entry (ck : Checkout) (cart : List Item) :
    ((orderPayloadA ck cart).lessons.length = cart.length ∧
      ∀ p, p < cart.length →
        (orderPayloadA ck cart).lessons.getD p default
          = { id := (cart.getD p default)._id
              topic := (cart.getD p default).topic
              price := (cart.getD p default).price
              quantity := cart.countP (fun c => c._id == (cart.getD p default)._id) }) ∧
    ((orderPayloadB ck cart).lessons.length = cart.length ∧
      ∀ p, p < cart.length →
        (orderPayloadB ck cart).lessons.getD p default
          = { id := (cart.getD p default)._id
              topic := (cart.getD p default).topic
              price := (cart.getD p default).price
              quantity := 1 }) := by
  refine ⟨⟨by simp [orderPayloadA], ?_⟩, ⟨by simp [orderPayloadB], ?_⟩⟩
  · intro p hp
    simp [orderPayloadA, List.getD_eq_getElem?_getD, List.getElem?_map,
      List.getElem?_eq_getElem hp, getD_eq_getElem hp]
  · intro p hp
    simp [orderPayloadB, List.getD_eq_getElem?_getD, List.getElem?_map,
      List.getElem?_eq_getElem hp, getD_eq_getElem hp]

/-- Witness for the amended C2 theorem at the `[A, B, A]` cart, position 0:
the first line is item A's with quantity 2. -/
theorem order_payload_one_line_per_cart_entry_witness :
    (orderPayloadA demoCheckout cartABA).lessons.getD 0 default
      = { id := 1, topic := "Math", price := 100, quantity := 2 } := by
  have h := (order_payload_one_line_per_cart_entry demoCheckout cartABA).1.2 0 (by decide)
  rw [h]
  decide

/-- C4: if the order-creation POST fails, submission aborts atomically in
both variants: the cart and the catalog (hence every item's `space`) are
exactly as before, no PUT is issued, and the blocking failure message is
shown.  Quantified over whatever the phase-2 inputs would have been. -/
theorem order_failure_aborts_atomically (s : AppState) (settle : Bool)
    (statuses : List Bool) :
    ((submitOrderA s false settle statuses).1.cart = s.cart ∧
     (submitOrderA s false settle statuses).1.lessons = s.lessons ∧
     (submitOrderA s false settle statuses).2.puts = [] ∧
     (submitOrderA s false settle statuses).1.orderMessage = some errorMsgA) ∧
    ((submitOrderB s false settle statuses).1.cart = s.cart ∧
     (submitOrderB s false settle statuses).1.lessons = s.lessons ∧
     (submitOrderB s false settle statuses).2.puts = [] ∧
     (submitOrderB s false settle statuses).1.orderMessage = some errorMsgB) :=
  ⟨⟨rfl, rfl, rfl, rfl⟩, ⟨rfl, rfl, rfl, rfl⟩⟩

/-- C5: when the POST succeeds and every phase-2 PUT settles, the individual
PUT statuses are not inspected: for any statuses (including failures) both
coordinators finalize identically to the all-success run — cart cleared,
checkout form cleared, success message shown. -/
theorem put_failures_not_distinguished_from_success (s : AppState)
    (statuses : List Bool) :
    (submitOrderA s true true statuses = submitOrderA s true true [] ∧
     (submitOrderA s true true statuses).1.cart = [] ∧
     (submitOrderA s true true statuses).1.checkout = { name := "", phone := "" } ∧
     (submitOrderA s true true statuses).1.orderMessage = some successMsgA) ∧
    (submitOrderB s true true statuses = submitOrderB s true true [] ∧
     (submitOrderB s true true statuses).1.cart = [] ∧
     (submitOrderB s true true statuses).1.checkout = { name := "", phone := "" } ∧
     (submitOrderB s true true statuses).1.orderMessage = some successMsgB) :=
  ⟨⟨rfl, rfl, rfl, rfl⟩, ⟨rfl, rfl, rfl, rfl⟩⟩

/-- C7: the claim states the sort is non-mutating.  Variant B
(`src/unnamed/part_000`) is: it sorts a copy and returns the state untouched.
Variant A (`src/app.js`) sorts `this.lessons` in place: evaluating
`sortedLessons` on a catalog `[Math, Art]` sorted by topic reorders the
catalog itself to the returned sequence, so the source list is *not* left
unchanged. -/
theorem sortedLessons_appjs_mutates_catalog :
    ((sortedLessonsA topicSortState).2.lessons ≠ topicSortState.lessons ∧
     (sortedLessonsA topicSortState).2.lessons = (sortedLessonsA topicSortState).1) ∧
    (∀ s : AppState, (sortedLessonsB s).2 = s) :=
  ⟨⟨by decide, rfl⟩, fun s => rfl⟩

/-- C10: `removeFromCart` (variant A) sets `orderMessage` to `null` exactly
when the removal empties the cart; when entries remain the message is left
unchanged. -/
theorem remove_clears_message_iff_cart_emptied (s : AppState) (pos : Nat)
    (hpos : pos < s.cart.length) :
    (s.cart.length = 1 → (removeFromCart pos s).orderMessage = none) ∧
    (1 < s.cart.length → (removeFromCart pos s).orderMessage = s.orderMessage) := by
  have hc : s.cart[pos]? = some s.cart[pos] := List.getElem?_eq_getElem hpos
  have hlen : (s.cart.eraseIdx pos).length = s.cart.length - 1 :=
    List.length_eraseIdx_of_lt hpos
  constructor
  · intro h1
    simp only [removeFromCart, hc]
    rw [if_pos (by omega)]
  · intro h1
    simp only [removeFromCart, hc]
    rw [if_neg (by omega)]

/-- Witness for C10: removing the sole entry clears the message; removing one
of two entries leaves it unchanged. -/
theorem remove_clears_message_iff_cart_emptied_witness :
    (removeFromCart 0 oneEntryCartState).orderMessage = none ∧
    (removeFromCart 0 twoEntryCartState).orderMessage = twoEntryCartState.orderMessage :=
  ⟨(remove_clears_message_iff_cart_emptied oneEntryCartState 0 (by decide)).1 (by decide),
   (remove_clears_message_iff_cart_emptied twoEntryCartState 0 (by decide)).2 (by decide)⟩

/-- C3: space conservation.  From a freshly synced catalog with distinct item
ids, after any sequence of `addToCart` / `removeFromCart` calls (either
variant's removal handler), every item's `space` plus the number of cart
entries referencing its id equals its `space` at the sync.  Quantifying over
all sequences covers every prefix, i.e. the invariant holds after each
individual call. -/
theorem space_conservation (L0 : List Item)
    (hnd : (L0.map (fun l => l._id)).Nodup) (ops : List CartOp) :
    Conserves L0 (runOps (syncedState L0) ops) :=
  (cartInv_run hnd ops (syncedState L0) (cartInv_init L0)).2.2.2

/-- Witness for C3 at the three-item catalog, after two adds and one removal. -/
theorem space_conservation_witness :
    Conserves [itemA, itemB, itemC]
      (runOps (syncedState [itemA, itemB, itemC]) [.add 0, .add 0, .removeA 0]) :=
  space_conservation [itemA, itemB, itemC] (by decide) [.add 0, .add 0, .removeA 0]

/-- C6: `addToCart` on an item whose `space` is 0 is a silent no-op (the
whole state, in particular cart length and every `space`, is unchanged), and
consequently non-negativity of all spaces is preserved by every add/remove
sequence, given it held initially. -/
theorem zero_space_add_noop_and_space_nonneg :
    (∀ (s : AppState) (i : Nat) (lesson : Item),
      s.lessons[i]? = some lesson → lesson.space = 0 → addToCart i s = s) ∧
    (∀ (s : AppState) (ops : List CartOp),
      NonNegSpace s → NonNegSpace (runOps s ops)) := by
  constructor
  · intro s i lesson h hz
    simp only [addToCart, h]
    rw [if_neg (by omega)]
  · intro s ops h
    exact nonnegSpace_run ops s h

/-- Witness for C6: adding the zero-space `itemC` changes nothing, and
non-negativity survives a concrete add/remove sequence. -/
theorem zero_space_add_noop_and_space_nonneg_witness :
    (addToCart 2 (syncedState [itemA, itemB, itemC]) = syncedState [itemA, itemB, itemC]) ∧
    NonNegSpace (runOps (syncedState [itemA, itemB, itemC]) [.add 0, .removeA 0]) :=
  ⟨zero_space_add_noop_and_space_nonneg.1 (syncedState [itemA, itemB, itemC]) 2 itemC
      (by decide) (by decide),
   zero_space_add_noop_and_space_nonneg.2 (syncedState [itemA, itemB, itemC])
      [.add 0, .removeA 0] (by decide)⟩

/-- C8 counterexample: with a stable comparator sort, re-sorting the
ascending result in descending order is *not* the exact reverse when two
items tie on the sort key: for two items sharing topic "Math", both orders
keep the original relative order, while the reverse swaps them. -/
theorem sort_desc_not_reverse_on_ties :
    jsSortedOrder .topic .desc (jsSortedOrder .topic .asc [itemA, itemA2])
      ≠ (jsSortedOrder .topic .asc [itemA, itemA2]).reverse := by
  decide

/-- C8 (amended): sorting twice with the same field and direction yields the
same order (for every field, direction and list); and ascending-then-
descending yields the exact reverse sequence provided the items' sort-key
values are pairwise distinct (no comparator ties). -/
theorem sort_idempotent_and_desc_reverses_asc (f : SortField) (L : List Item) :
    (∀ d, jsSortedOrder f d (jsSortedOrder f d L) = jsSortedOrder f d L) ∧
    (L.Pairwise (fun a b => keyCmp f a b ≠ 0) →
      jsSortedOrder f .desc (jsSortedOrder f .asc L)
        = (jsSortedOrder f .asc L).reverse) := by
  constructor
  · intro d
    exact jsStableSort_of_pairwise _
      (jsStableSort_pairwise _ (leOf_total f d) (leOf_trans f d) L)
  · intro hkeys
    have hsymm : ∀ {x y : Item}, keyCmp f x y ≠ 0 → keyCmp f y x ≠ 0 := by
      intro x y h
      rw [keyCmp_neg]
      omega
    have hA_pair : (jsSortedOrder f .asc L).Pairwise
        (fun x y => leOf f .asc x y = true) :=
      jsStableSort_pairwise _ (leOf_total f .asc) (leOf_trans f .asc) L
    have hA_perm : (jsSortedOrder f .asc L).Perm L := jsStableSort_perm _ L
    have hA_keys : (jsSortedOrder f .asc L).Pairwise
        (fun a b => keyCmp f a b ≠ 0) :=
      (hA_perm.pairwise_iff (fun {x y} h => hsymm h)).mpr hkeys
    have hA_strict : (jsSortedOrder f .asc L).Pairwise
        (fun a b => keyCmp f a b < 0) := by
      refine (hA_pair.and hA_keys).imp ?_
      intro a b hab
      have h1 := (leOf_asc_iff f a b).mp hab.1
      have h2 := hab.2
      omega
    have hD_pair : (jsSortedOrder f .desc (jsSortedOrder f .asc L)).Pairwise
        (fun x y => leOf f .desc x y = true) :=
      jsStableSort_pairwise _ (leOf_total f .desc) (leOf_trans f .desc) _
    have hD_perm : (jsSortedOrder f .desc (jsSortedOrder f .asc L)).Perm
        (jsSortedOrder f .asc L) := jsStableSort_perm _ _
    have hD_keys : (jsSortedOrder f .desc (jsSortedOrder f .asc L)).Pairwise
        (fun a b => keyCmp f a b ≠ 0) :=
      (hD_perm.pairwise_iff (fun {x y} h => hsymm h)).mpr hA_keys
    have hD_strict : (jsSortedOrder f .desc (jsSortedOrder f .asc L)).Pairwise
        (fun a b => 0 < keyCmp f a b) := by
      refine (hD_pair.and hD_keys).imp ?_
      intro a b hab
      have h1 := (leOf_desc_iff f a b).mp hab.1
      have h2 := hab.2
      rw [keyCmp_neg f a b] at h1
      omega
    have hRev_strict : ((jsSortedOrder f .asc L).reverse).Pairwise
        (fun a b => 0 < keyCmp f a b) := by
      rw [List.pairwise_reverse]
      refine hA_strict.imp ?_
      intro a b hab
      rw [keyCmp_neg]
      omega
    have hperm : (jsSortedOrder f .desc (jsSortedOrder f .asc L)).Perm
        ((jsSortedOrder f .asc L).reverse) :=
      hD_perm.trans (jsSortedOrder f .asc L).reverse_perm.symm
    haveI : IsAntisymm Item (fun a b => 0 < keyCmp f a b) := by
      refine ⟨?_⟩
      intro a b h1 h2
      rw [keyCmp_neg f a b] at h2
      exact absurd h1 (by omega)
    exact List.eq_of_perm_of_sorted hperm hD_strict hRev_strict

/-- Witness for the amended C8 theorem: a catalog with pairwise-distinct
topics, where descending re-sort equals the reverse of the ascending order. -/
theorem sort_idempotent_and_desc_reverses_asc_witness :
    jsSortedOrder .topic .desc (jsSortedOrder .topic .asc [itemA, itemB, itemC])
      = (jsSortedOrder .topic .asc [itemA, itemB, itemC]).reverse :=
  (sort_idempotent_and_desc_reverses_asc .topic [itemA, itemB, itemC]).2 (by decide)

lemma addToCart_eq {s : AppState} {i : Nat} {lesson : Item}
    (h : s.lessons[i]? = some lesson) (hsp : 0 < lesson.space) :
    addToCart i s
      = { s with
          cart := s.cart ++ [i],
          lessons := s.lessons.set i { lesson with space := lesson.space - 1 } } := by
  simp only [addToCart, h]
  rw [if_pos hsp]

/-- C9: cart entries are live references, not snapshots.  A successful
`addToCart` appends the received reference itself (no copy), the new entry
dereferences to the just-decremented item, and a later mutation of the item
(here: a second add of the same item) is observable through the *first*,
already existing cart entry, which then reads the twice-decremented space. -/
theorem cart_entries_are_live_references (s : AppState) (i : Nat) (lesson : Item)
    (h : s.lessons[i]? = some lesson) (hsp : 0 < lesson.space) :
    (addToCart i s).cart = s.cart ++ [i] ∧
    entryItem (addToCart i s) s.cart.length = { lesson with space := lesson.space - 1 } ∧
    (1 < lesson.space →
      entryItem (addToCart i (addToCart i s)) s.cart.length
        = { lesson with space := lesson.space - 2 }) := by
  have hi : i < s.lessons.length := (List.getElem?_eq_some_iff.mp h).1
  have e1 := addToCart_eq h hsp
  refine ⟨by rw [e1], ?_, ?_⟩
  · rw [e1]
    unfold entryItem
    dsimp only
    have hc : (s.cart ++ [i]).getD s.cart.length 0 = i := by
      simp [List.getD_eq_getElem?_getD, List.getElem?_concat_length]
    rw [hc, getD_set_self hi]
  · intro h2
    have hl1 : (0 : Int) < ({ lesson with space := lesson.space - 1 } : Item).space := by
      dsimp only
      omega
    have hget2 : (addToCart i s).lessons[i]? = some { lesson with space := lesson.space - 1 } := by
      rw [e1]
      dsimp only
      exact List.getElem?_set_self hi
    have e2 := addToCart_eq hget2 hl1
    rw [e2]
    unfold entryItem
    dsimp only
    have hlt : s.cart.length < (s.cart ++ [i]).length := by simp
    have hc2 : ((addToCart i s).cart ++ [i]).getD s.cart.length 0 = i := by
      rw [e1]
      dsimp only
      rw [List.getD_eq_getElem?_getD, List.getElem?_append_left hlt,
        List.getElem?_concat_length]
      rfl
    rw [hc2]
    have hilen : i < (addToCart i s).lessons.length := by
      rw [e1]
      simpa using hi
    rw [getD_set_self hilen]
    show Item.mk lesson._id lesson.topic lesson.subject lesson.location
        lesson.price (lesson.space - 1 - 1)
      = { lesson with space := lesson.space - 2 }
    have harith : lesson.space - 1 - 1 = lesson.space - 2 := by omega
    rw [harith]

/-- Witness for C9 at a one-item catalog with `space = 5`: the entry is the
reference `0`, reads space 4, and after a second add the first entry reads
space 3. -/
theorem cart_entries_are_live_references_witness :
    (addToCart 0 (syncedState [itemA])).cart = [] ++ [0] ∧
    entryItem (addToCart 0 (syncedState [itemA])) 0 = { itemA with space := 4 } ∧
    (1 < itemA.space →
      entryItem (addToCart 0 (addToCart 0 (syncedState [itemA]))) 0
        = { itemA with space := 3 }) :=
  cart_entries_are_live_references (syncedState [itemA]) 0 itemA (by decide) (by decide)
